import Mathlib

/-!
Verification of the rotation-backtest core of `src/api/graph.py`.

Modelling conventions (shallow embedding):
* pandas floats are modelled as rationals; a missing value (NaN) is `none`,
  a present value `some q`.  Float arithmetic on present values is exact for
  the operations used here (add, sub, mul, div by nonzero), and NaN
  propagation is modelled by `Option` propagation.
* a pandas `Series` row of the return panel is an association list
  `List (String × Option ℚ)` in column order; `dropna` keeps the present
  entries.
* `Python round(x, 2)` is banker's rounding at two decimals.
-/

attribute [local semireducible] Rat.mul Rat.add Rat.inv Rat.sub

namespace DashGraph

/-- A pandas cell: `none` models NaN / missing, `some q` a present float. -/
abbrev V := Option ℚ

/-- graph.py line 38: `initial_value = 10000`. -/
def initial_value : ℚ := 10000

/-- Round a rational to the nearest integer, ties to even (Python `round`). -/
def roundHalfEven (q : ℚ) : ℤ :=
  let f := ⌊q⌋
  let r := q - (f : ℚ)
  if r < 1 / 2 then f
  else if 1 / 2 < r then f + 1
  else if f % 2 = 0 then f else f + 1

/-- Python `round(x, 2)`. -/
def round2 (q : ℚ) : ℚ := (roundHalfEven (q * 100) : ℚ) / 100

/-! ## RotationBacktester (graph.py lines 38–78)

A return-panel row is carried as an association list from symbol to cell;
the panel is the list of `(year, row)` pairs, i.e. `annual_returns` with its
`DatetimeIndex` reduced to calendar years. -/

/-- One row of `annual_returns`: symbol → cell, in column order. -/
abbrev Row := List (String × V)

/-- pandas `Series.dropna()`: keep the present entries, in order. -/
def dropna (row : Row) : List (String × ℚ) :=
  row.filterMap fun p => p.2.map fun x => (p.1, x)

/-- graph.py line 50 fused with line 52's reindex:
`current_returns[valid_stocks]` — the entries of the current row whose
symbol also occurs in the next row (`Index.intersection` keeps the caller's
order). -/
def valid_stocks (cur next : List (String × ℚ)) : List (String × ℚ) :=
  cur.filter fun p => next.any fun q => q.1 == p.1

/-- Descending-by-value order used for the top selection. -/
def rdesc (p q : String × ℚ) : Prop := q.2 ≤ p.2

/-- Ascending-by-value order used for the bottom selection. -/
def rasc (p q : String × ℚ) : Prop := p.2 ≤ q.2

instance : DecidableRel rdesc := fun p q => inferInstanceAs (Decidable (q.2 ≤ p.2))

instance : DecidableRel rasc := fun p q => inferInstanceAs (Decidable (p.2 ≤ q.2))

instance : IsTotal (String × ℚ) rdesc := ⟨fun p q => le_total q.2 p.2⟩

instance : IsTrans (String × ℚ) rdesc := ⟨fun _ _ _ h h' => le_trans h' h⟩

instance : IsTotal (String × ℚ) rasc := ⟨fun p q => le_total p.2 q.2⟩

instance : IsTrans (String × ℚ) rasc := ⟨fun _ _ _ h h' => le_trans h h'⟩

/-- graph.py line 52: `current_returns[valid_stocks].sort_values(ascending=False).head(10)`. -/
def top10 (cur next : List (String × ℚ)) : List (String × ℚ) :=
  (List.insertionSort rdesc (valid_stocks cur next)).take 10

/-- graph.py line 53: `current_returns[valid_stocks].sort_values().head(10)`. -/
def bottom10 (cur next : List (String × ℚ)) : List (String × ℚ) :=
  (List.insertionSort rasc (valid_stocks cur next)).take 10

/-- Label lookup in a dropna'd series (`next_returns[s]`). -/
def lookupRet (xs : List (String × ℚ)) (s : String) : Option ℚ :=
  (xs.find? fun q => q.1 == s).map (·.2)

/-- pandas `Series.mean()`: NaN on an empty series, else the arithmetic mean. -/
def seriesMean (vals : List ℚ) : V :=
  if vals.isEmpty then none else some (vals.sum / (vals.length : ℚ))

/-- graph.py line 55: `next_returns[top10.index].mean()`. -/
def top_avg (cur next : List (String × ℚ)) : V :=
  seriesMean ((top10 cur next).filterMap fun p => lookupRet next p.1)

/-- graph.py line 56: `next_returns[bottom10.index].mean()`. -/
def bottom_avg (cur next : List (String × ℚ)) : V :=
  seriesMean ((bottom10 cur next).filterMap fun p => lookupRet next p.1)

/-- graph.py line 58: `previous * (1 + avg)`, with float-NaN propagation. -/
def stepValue (prev avg : V) : V :=
  match prev, avg with
  | some p, some a => some (p * (1 + a))
  | _, _ => none

/-- One entry of `detailed_records` (graph.py lines 66–78). -/
structure SelectionRecord where
  year : Int
  category : String
  stock : String
  returnPct : ℚ
deriving Repr, DecidableEq

/-- graph.py lines 65–78: the records appended for one transition. -/
def recordsFor (nextYear : Int) (cur next : List (String × ℚ)) : List SelectionRecord :=
  ((top10 cur next).map fun p => ⟨nextYear, "Top 10", p.1, round2 (p.2 * 100)⟩) ++
  ((bottom10 cur next).map fun p => ⟨nextYear, "Bottom 10", p.1, round2 (p.2 * 100)⟩)

/-- graph.py lines 45–78: the simulation loop over consecutive row pairs,
threading the two previous portfolio values; returns the appended track
values, the appended years and the appended records. -/
def backtestLoop : List (Int × Row) → V → V →
    List V × List V × List Int × List SelectionRecord
  | (_, r1) :: (y2, r2) :: rest, pt, pb =>
    let cur := dropna r1
    let next := dropna r2
    let tv := stepValue pt (top_avg cur next)
    let bv := stepValue pb (bottom_avg cur next)
    let tail := backtestLoop ((y2, r2) :: rest) tv bv
    (tv :: tail.1, bv :: tail.2.1, y2 :: tail.2.2.1, recordsFor y2 cur next ++ tail.2.2.2)
  | _, _, _ => ([], [], [], [])

/-- The backtester's output tables. -/
structure BacktestResult where
  top_portfolio : List V
  bottom_portfolio : List V
  years : List Int
  detailed_records : List SelectionRecord
deriving Repr, DecidableEq

/-- graph.py lines 38–78 as one function of the return panel.  An empty
panel is `none`: line 41 (`annual_returns.index[0]`) raises IndexError. -/
def backtest (panel : List (Int × Row)) : Option BacktestResult :=
  match panel with
  | [] => none
  | (y0, _) :: _ =>
    let r := backtestLoop panel (some initial_value) (some initial_value)
    some ⟨some initial_value :: r.1, some initial_value :: r.2.1,
          y0 :: r.2.2.1, r.2.2.2⟩

/-! ## SummaryAggregator (graph.py lines 80–99) -/

/-- One entry of `summary_rows`; a field is `none` when the float there is NaN. -/
structure SummaryRow where
  year : Int
  topReturnPct : V
  bottomReturnPct : V
  topEnd : V
  bottomEnd : V
  topCumPct : V
  bottomCumPct : V
deriving Repr, DecidableEq

/-- graph.py lines 88–89: `(end - start) / start` with NaN propagation. -/
def periodReturn (vstart vend : V) : V :=
  match vstart, vend with
  | some a, some b => some ((b - a) / a)
  | _, _ => none

/-- graph.py lines 91–99: the summary row for year `y` from the two
track values before and after the transition. -/
def mkSummaryRow (y : Int) (ts te bs be : V) : SummaryRow :=
  ⟨y,
   (periodReturn ts te).map fun r => round2 (r * 100),
   (periodReturn bs be).map fun r => round2 (r * 100),
   te.map round2, be.map round2,
   te.map fun v => round2 ((v / initial_value - 1) * 100),
   be.map fun v => round2 ((v / initial_value - 1) * 100)⟩

/-- graph.py lines 80–99: the loop `for i in range(1, len(years))` over
the (equal-length) years and track lists. -/
def summary_rows : List Int → List V → List V → List SummaryRow
  | _ :: y2 :: ys, t1 :: t2 :: ts, b1 :: b2 :: bs =>
    mkSummaryRow y2 t1 t2 b1 b2 :: summary_rows (y2 :: ys) (t2 :: ts) (b2 :: bs)
  | _, _, _ => []

/-! ## ReturnSeriesBuilder (graph.py lines 33–35)

`yearly_prices = prices.resample('YE').last()` and
`annual_returns = yearly_prices.pct_change().dropna(how='all')`.
A price column is the list of cells along a dense year axis; the
observations feeding the resample are `(year, cell)` pairs in time order. -/

/-- `resample('YE').last()` for one symbol and one year: the last present
observation of that calendar year, `none` when the year has no present
observation. -/
def yearLast (obs : List (Int × V)) (y : Int) : V :=
  (obs.filterMap fun p => if p.1 = y then p.2 else none).getLast?

/-- The resampled price panel: a dense year axis and one column per symbol. -/
structure PricePanel where
  years : List Int
  cols : List (String × List V)
deriving Repr, DecidableEq

/-- `prices.resample('YE').last()` over a dense year axis. -/
def resampleYE (years : List Int) (data : List (String × List (Int × V))) : PricePanel :=
  ⟨years, data.map fun sc => (sc.1, years.map (yearLast sc.2))⟩

/-- Forward fill of a column, carrying the last present value
(the `fill_method='pad'` step of pandas `pct_change`). -/
def ffill (last : V) : List V → List V
  | [] => []
  | none :: rest => last :: ffill last rest
  | some x :: rest => some x :: ffill (some x) rest

/-- The cell-level change `b / a - 1`, NaN when either side is missing. -/
def ratioChange : V → V → V
  | some a, some b => some (b / a - 1)
  | _, _ => none

/-- pandas `Series.pct_change()` with its default `fill_method='pad'`:
forward-fill the column, then divide each cell by its predecessor. -/
def pct_change (xs : List V) : List V :=
  List.zipWith ratioChange (none :: ffill none xs) (ffill none xs)

/-- `yearly_prices.pct_change()` column by column. -/
def pctPanel (p : PricePanel) : PricePanel :=
  ⟨p.years, p.cols.map fun sc => (sc.1, pct_change sc.2)⟩

/-- Row `i` of the panel holds no present cell. -/
def rowIsAllNone (p : PricePanel) (i : Nat) : Bool :=
  p.cols.all fun sc => (sc.2.getD i none).isNone

/-- Indices of the rows `dropna(how='all')` keeps. -/
def keepRows (p : PricePanel) : List Nat :=
  (List.range p.years.length).filter fun i => !(rowIsAllNone p i)

/-- pandas `dropna(how='all')` on the rows of a panel. -/
def dropAllNoneRows (p : PricePanel) : PricePanel :=
  ⟨(keepRows p).map fun i => p.years.getD i 0,
   p.cols.map fun sc => (sc.1, (keepRows p).map fun i => sc.2.getD i none)⟩

/-- graph.py line 35: `annual_returns = yearly_prices.pct_change().dropna(how='all')`. -/
def annual_returns (p : PricePanel) : PricePanel :=
  dropAllNoneRows (pctPanel p)

/-! ## Single-stock inspection (graph.py lines 110–114 and 191–204) -/

/-- pandas `Series.dropna()` on a bare value column. -/
def dropnaSeries (xs : List V) : List ℚ := xs.filterMap id

/-- graph.py line 114: `series / series.iloc[0] * 100` (only reached on a
non-empty series; on `[]` the Python code would raise, never called so). -/
def normalized (s : List ℚ) : List ℚ :=
  match s with
  | [] => []
  | x0 :: _ => s.map fun x => x / x0 * 100

/-- graph.py lines 110–114: the preloaded map, one entry per ticker whose
dropna'd price series is non-empty. -/
def preloaded_data (cols : List (String × List V)) : List (String × List ℚ) :=
  cols.filterMap fun sc =>
    let s := dropnaSeries sc.2
    if s.isEmpty then none else some (sc.1, normalized s)

/-- The figure returned by the stock chart callback. -/
inductive StockFigure where
  | noData (ticker : String)
  | chart (ticker : String) (series : List ℚ)
deriving Repr, DecidableEq

/-- graph.py lines 191–204: `update_stock_chart`. -/
def update_stock_chart (pre : List (String × List ℚ)) (ticker : String) : StockFigure :=
  match pre.find? fun p => p.1 == ticker with
  | none => .noData ticker
  | some p => if p.2.isEmpty then .noData ticker else .chart ticker p.2

/-! ## Derived views of the backtest loop, used to state its properties -/

/-- The per-transition top average, one entry per consecutive row pair. -/
def top_avgs : List (Int × Row) → List V
  | (_, r1) :: (y2, r2) :: rest => top_avg (dropna r1) (dropna r2) :: top_avgs ((y2, r2) :: rest)
  | _ => []

/-- The per-transition bottom average, one entry per consecutive row pair. -/
def bottom_avgs : List (Int × Row) → List V
  | (_, r1) :: (y2, r2) :: rest => bottom_avg (dropna r1) (dropna r2) :: bottom_avgs ((y2, r2) :: rest)
  | _ => []

/-- All selection records, transition by transition. -/
def records_all : List (Int × Row) → List SelectionRecord
  | (_, r1) :: (y2, r2) :: rest =>
    recordsFor y2 (dropna r1) (dropna r2) ++ records_all ((y2, r2) :: rest)
  | _ => []

/-- Compound a seed value through a list of period averages. -/
def compound (seed : V) : List V → List V
  | [] => []
  | a :: as => stepValue seed a :: compound (stepValue seed a) as

theorem backtestLoop_eq (rows : List (Int × Row)) :
    ∀ pt pb, backtestLoop rows pt pb =
      (compound pt (top_avgs rows), compound pb (bottom_avgs rows),
       (rows.map Prod.fst).tail, records_all rows) := by
  induction rows with
  | nil => intro pt pb; rfl
  | cons hd tl ih =>
    intro pt pb
    cases tl with
    | nil => rfl
    | cons hd2 tl2 =>
      obtain ⟨y1, r1⟩ := hd
      obtain ⟨y2, r2⟩ := hd2
      simp only [backtestLoop, top_avgs, bottom_avgs, records_all, compound, ih,
        List.map_cons, List.tail_cons]

theorem compound_length (as : List V) : ∀ seed, (compound seed as).length = as.length := by
  induction as with
  | nil => intro seed; rfl
  | cons a as ih => intro seed; simp [compound, ih]

theorem top_avgs_length (rows : List (Int × Row)) :
    (top_avgs rows).length = rows.length - 1 := by
  induction rows with
  | nil => rfl
  | cons hd tl ih =>
    cases tl with
    | nil => rfl
    | cons hd2 tl2 =>
      obtain ⟨y1, r1⟩ := hd
      obtain ⟨y2, r2⟩ := hd2
      simp only [top_avgs, List.length_cons] at ih ⊢
      omega

theorem bottom_avgs_length (rows : List (Int × Row)) :
    (bottom_avgs rows).length = rows.length - 1 := by
  induction rows with
  | nil => rfl
  | cons hd tl ih =>
    cases tl with
    | nil => rfl
    | cons hd2 tl2 =>
      obtain ⟨y1, r1⟩ := hd
      obtain ⟨y2, r2⟩ := hd2
      simp only [bottom_avgs, List.length_cons] at ih ⊢
      omega

theorem summary_rows_length : ∀ (ys : List Int) (ts bs : List V),
    ts.length = ys.length → bs.length = ys.length →
    (summary_rows ys ts bs).length = ys.length - 1 := by
  intro ys
  induction ys with
  | nil => intro ts bs h1 h2; cases ts <;> cases bs <;> simp_all [summary_rows]
  | cons y tl ih =>
    intro ts bs h1 h2
    cases tl with
    | nil =>
      cases ts with
      | nil => simp at h1
      | cons t ts' =>
        cases bs with
        | nil => simp at h2
        | cons b bs' =>
          cases ts' <;> cases bs' <;> simp_all [summary_rows]
    | cons y2 tl2 =>
      cases ts with
      | nil => simp at h1
      | cons t1 ts' =>
        cases ts' with
        | nil => simp at h1
        | cons t2 ts'' =>
          cases bs with
          | nil => simp at h2
          | cons b1 bs' =>
            cases bs' with
            | nil => simp at h2
            | cons b2 bs'' =>
              simp only [summary_rows, List.length_cons] at *
              rw [ih (t2 :: ts'') (b2 :: bs'') (by simpa using h1) (by simpa using h2)]
              simp

theorem compound_track_getElem (as : List V) : ∀ (seed : V) (i : Nat),
    i + 1 < (seed :: compound seed as).length →
    (seed :: compound seed as)[i+1]? =
      some (stepValue ((seed :: compound seed as).getD i none) (as.getD i none)) := by
  induction as with
  | nil => intro seed i h; simp [compound] at h
  | cons a as ih =>
    intro seed i h
    cases i with
    | zero => simp [compound]
    | succ j =>
      have hj : j + 1 < (stepValue seed a :: compound (stepValue seed a) as).length := by
        simpa [compound] using h
      have := ih (stepValue seed a) j hj
      simpa [compound] using this

theorem backtest_lengths_aux (panel : List (Int × Row)) (res : BacktestResult)
    (h : backtest panel = some res) :
    res.top_portfolio.length = panel.length ∧
    res.bottom_portfolio.length = panel.length ∧
    res.years.length = panel.length := by
  match panel, h with
  | (y0, r0) :: rest, h =>
    rw [backtest] at h
    simp only [backtestLoop_eq] at h
    obtain rfl : _ = res := Option.some.inj h
    refine ⟨by simp [compound_length, top_avgs_length],
      by simp [compound_length, bottom_avgs_length], by simp⟩

/-- C2: for every AnnualReturnPanel with n ≥ 1 rows the backtester produces
a top track of length n, a bottom track of length n, a years sequence of
length n, and a summary sequence of length n − 1. -/
theorem backtest_output_lengths (panel : List (Int × Row)) (res : BacktestResult)
    (h : backtest panel = some res) :
    res.top_portfolio.length = panel.length ∧
    res.bottom_portfolio.length = panel.length ∧
    res.years.length = panel.length ∧
    (summary_rows res.years res.top_portfolio res.bottom_portfolio).length
      = panel.length - 1 := by
  obtain ⟨h1, h2, h3⟩ := backtest_lengths_aux panel res h
  exact ⟨h1, h2, h3,
    by rw [summary_rows_length _ _ _ (by rw [h1, h3]) (by rw [h2, h3]), h3]⟩

/-- Witness for C2 at a concrete two-row panel. -/
def panelEx : List (Int × Row) :=
  [((2004 : Int), [("A", some (1/2 : ℚ)), ("B", some (-(3/10) : ℚ))]),
   ((2005 : Int), [("A", some (1/10 : ℚ)), ("B", some (1/5 : ℚ))])]

/-- The backtester's output on `panelEx`. -/
def resEx : BacktestResult :=
  ⟨[some 10000, some 11500], [some 10000, some 11500], [2004, 2005],
   [⟨2005, "Top 10", "A", 50⟩, ⟨2005, "Top 10", "B", -30⟩,
    ⟨2005, "Bottom 10", "B", -30⟩, ⟨2005, "Bottom 10", "A", 50⟩]⟩

theorem backtest_output_lengths_witness :
    resEx.top_portfolio.length = panelEx.length ∧
    resEx.bottom_portfolio.length = panelEx.length ∧
    resEx.years.length = panelEx.length ∧
    (summary_rows resEx.years resEx.top_portfolio resEx.bottom_portfolio).length
      = panelEx.length - 1 :=
  backtest_output_lengths panelEx resEx (by decide)

/-- C1: both tracks start at `initial_value = 10000`, and each later entry
is the previous entry times one plus the mean next-year return of that
transition's selected symbols (NaN-propagating, as the float code does). -/
theorem track_compounding (panel : List (Int × Row)) (res : BacktestResult)
    (h : backtest panel = some res) :
    initial_value = 10000 ∧
    res.top_portfolio[0]? = some (some initial_value) ∧
    res.bottom_portfolio[0]? = some (some initial_value) ∧
    (∀ i, i + 1 < res.top_portfolio.length →
      res.top_portfolio[i+1]? =
        some (stepValue (res.top_portfolio.getD i none) ((top_avgs panel).getD i none))) ∧
    (∀ i, i + 1 < res.bottom_portfolio.length →
      res.bottom_portfolio[i+1]? =
        some (stepValue (res.bottom_portfolio.getD i none) ((bottom_avgs panel).getD i none))) := by
  match panel, h with
  | (y0, r0) :: rest, h =>
    rw [backtest] at h
    simp only [backtestLoop_eq] at h
    obtain rfl : _ = res := Option.some.inj h
    exact ⟨rfl, by simp, by simp,
      fun i hi => compound_track_getElem _ _ i hi,
      fun i hi => compound_track_getElem _ _ i hi⟩

theorem track_compounding_witness :
    resEx.top_portfolio[0]? = some (some initial_value) ∧
    resEx.top_portfolio[0+1]? =
      some (stepValue (resEx.top_portfolio.getD 0 none) ((top_avgs panelEx).getD 0 none)) ∧
    resEx.bottom_portfolio[0+1]? =
      some (stepValue (resEx.bottom_portfolio.getD 0 none) ((bottom_avgs panelEx).getD 0 none)) :=
  ⟨(track_compounding panelEx resEx (by decide)).2.1,
   (track_compounding panelEx resEx (by decide)).2.2.2.1 0 (by decide),
   (track_compounding panelEx resEx (by decide)).2.2.2.2 0 (by decide)⟩

/-! ## C4: behaviour on degenerate inputs -/

/-- A panel with a single return row: no transition is possible. -/
def singleRowPanel : List (Int × Row) := [((2004 : Int), [("A", some (1 : ℚ))])]

/-- A two-row panel whose rows share no symbol: `valid_stocks` is empty. -/
def noOverlapPanel : List (Int × Row) :=
  [((2004 : Int), [("A", some (1 : ℚ))]), ((2005 : Int), [("B", some (1 : ℚ))])]

/-- C4 counterexample: on a single-row panel the backtester silently returns
a degenerate one-point track (and an empty summary), and on a transition with
empty `valid_stocks` it silently returns NaN track values — in neither case
does it report a computation error. -/
theorem degenerate_inputs_counterexample :
    backtest singleRowPanel =
      some ⟨[some initial_value], [some initial_value], [2004], []⟩ ∧
    summary_rows [2004] [some initial_value] [some initial_value] = [] ∧
    backtest noOverlapPanel =
      some ⟨[some initial_value, none], [some initial_value, none], [2004, 2005], []⟩ :=
  ⟨by decide, by decide, by decide⟩

/-- C4 amended: a single-row panel yields a silently returned one-point track
with no records; an empty `valid_stocks` makes both averages NaN and the
appended track values NaN, still silently returned; only the empty panel is
an error (`annual_returns.index[0]` raises). -/
theorem degenerate_inputs_amended :
    (∀ (y : Int) (row : Row), backtest [(y, row)] =
      some ⟨[some initial_value], [some initial_value], [y], []⟩) ∧
    (∀ cur next, valid_stocks cur next = [] →
      top_avg cur next = none ∧ bottom_avg cur next = none) ∧
    (∀ (y1 : Int) (r1 : Row) (y2 : Int) (r2 : Row) rest pt pb,
      valid_stocks (dropna r1) (dropna r2) = [] →
      (backtestLoop ((y1, r1) :: (y2, r2) :: rest) pt pb).1[0]? = some none ∧
      (backtestLoop ((y1, r1) :: (y2, r2) :: rest) pt pb).2.1[0]? = some none) ∧
    backtest ([] : List (Int × Row)) = none := by
  have havg : ∀ cur next, valid_stocks cur next = [] →
      top_avg cur next = none ∧ bottom_avg cur next = none := by
    intro cur next h
    constructor <;> simp [top_avg, bottom_avg, top10, bottom10, h, seriesMean]
  refine ⟨fun y row => rfl, havg, ?_, rfl⟩
  intro y1 r1 y2 r2 rest pt pb h
  obtain ⟨ht, hb⟩ := havg _ _ h
  rw [backtestLoop]
  simp only [ht, hb]
  cases pt <;> cases pb <;> simp [stepValue]

theorem degenerate_inputs_amended_witness :
    backtest [((2004 : Int), [("A", some (1 : ℚ))])] =
      some ⟨[some initial_value], [some initial_value], [2004], []⟩ ∧
    top_avg (dropna [("A", some (1 : ℚ))]) (dropna [("B", some (1 : ℚ))]) = none ∧
    (backtestLoop noOverlapPanel (some initial_value) (some initial_value)).1[0]?
      = some none :=
  ⟨degenerate_inputs_amended.1 2004 _,
   (degenerate_inputs_amended.2.1 _ _ (by decide)).1,
   (degenerate_inputs_amended.2.2.1 2004 _ 2005 _ [] _ _ (by decide)).1⟩

/-! ## C7: summary rows -/

theorem summary_rows_getElem : ∀ (ys : List Int) (ts bs : List V) (i : Nat),
    ts.length = ys.length → bs.length = ys.length → i + 1 < ys.length →
    (summary_rows ys ts bs)[i]? =
      some (mkSummaryRow (ys.getD (i+1) 0) (ts.getD i none) (ts.getD (i+1) none)
        (bs.getD i none) (bs.getD (i+1) none)) := by
  intro ys
  induction ys with
  | nil => intro ts bs i h1 h2 hi; simp at hi
  | cons y tl ih =>
    intro ts bs i h1 h2 hi
    cases tl with
    | nil => simp at hi
    | cons y2 tl2 =>
      cases ts with
      | nil => simp at h1
      | cons t1 ts' =>
        cases ts' with
        | nil => simp at h1
        | cons t2 ts'' =>
          cases bs with
          | nil => simp at h2
          | cons b1 bs' =>
            cases bs' with
            | nil => simp at h2
            | cons b2 bs'' =>
              cases i with
              | zero => simp [summary_rows]
              | succ j =>
                have hrec := ih (t2 :: ts'') (b2 :: bs'') j
                  (by simpa using h1) (by simpa using h2) (by simpa using hi)
                simpa [summary_rows] using hrec

/-- C7: summary row `i` (for `i ≥ 1` in the source's indexing) is built from
the full-precision track values at `i−1` and `i`: the per-year return
`(end − start)/start` emitted as a percent rounded to 2 decimals, the end
values rounded to 2 decimals, and the cumulative return
`(end/initial_value − 1)·100` rounded to 2 decimals; rounding is applied
only to the emitted fields, never to the track itself. -/
theorem summary_row_fields (panel : List (Int × Row)) (res : BacktestResult)
    (h : backtest panel = some res) :
    (∀ i, i + 1 < res.years.length →
      (summary_rows res.years res.top_portfolio res.bottom_portfolio)[i]? =
        some (mkSummaryRow (res.years.getD (i+1) 0)
          (res.top_portfolio.getD i none) (res.top_portfolio.getD (i+1) none)
          (res.bottom_portfolio.getD i none) (res.bottom_portfolio.getD (i+1) none))) ∧
    (∀ (y : Int) (a b c d : ℚ), mkSummaryRow y (some a) (some b) (some c) (some d) =
      ⟨y, some (round2 ((b - a) / a * 100)), some (round2 ((d - c) / c * 100)),
       some (round2 b), some (round2 d),
       some (round2 ((b / initial_value - 1) * 100)),
       some (round2 ((d / initial_value - 1) * 100))⟩) := by
  obtain ⟨h1, h2, h3⟩ := backtest_lengths_aux panel res h
  exact ⟨fun i hi =>
      summary_rows_getElem res.years res.top_portfolio res.bottom_portfolio i
        (by rw [h1, h3]) (by rw [h2, h3]) hi,
    fun y a b c d => rfl⟩

theorem summary_row_fields_witness :
    (summary_rows resEx.years resEx.top_portfolio resEx.bottom_portfolio)[0]? =
      some (mkSummaryRow (resEx.years.getD 1 0)
        (resEx.top_portfolio.getD 0 none) (resEx.top_portfolio.getD 1 none)
        (resEx.bottom_portfolio.getD 0 none) (resEx.bottom_portfolio.getD 1 none)) ∧
    mkSummaryRow 2005 (some 10000) (some 11500) (some 10000) (some 11500) =
      ⟨2005, some (round2 ((11500 - 10000) / 10000 * 100)),
       some (round2 ((11500 - 10000) / 10000 * 100)),
       some (round2 11500), some (round2 11500),
       some (round2 ((11500 / initial_value - 1) * 100)),
       some (round2 ((11500 / initial_value - 1) * 100))⟩ :=
  ⟨(summary_row_fields panelEx resEx (by decide)).1 0 (by decide),
   (summary_row_fields panelEx resEx (by decide)).2 2005 10000 11500 10000 11500⟩

/-! ## C8: fewer than ten valid stocks -/

theorem seriesMean_perm {l l' : List ℚ} (h : l.Perm l') : seriesMean l = seriesMean l' := by
  unfold seriesMean
  have hlen := h.length_eq
  have he : l.isEmpty = l'.isEmpty := by
    cases l <;> cases l' <;> simp_all
  rw [h.sum_eq, hlen, he]

/-- C8: when a transition has fewer than 10 valid stocks the backtester
selects them all — descending by prior return for the top side, ascending
for the bottom side — and averages over the reduced selection. -/
theorem short_window_selects_all (cur next : List (String × ℚ))
    (h : (valid_stocks cur next).length < 10) :
    top10 cur next = List.insertionSort rdesc (valid_stocks cur next) ∧
    bottom10 cur next = List.insertionSort rasc (valid_stocks cur next) ∧
    (top10 cur next).length = (valid_stocks cur next).length ∧
    (bottom10 cur next).length = (valid_stocks cur next).length ∧
    (top10 cur next).Perm (valid_stocks cur next) ∧
    (bottom10 cur next).Perm (valid_stocks cur next) ∧
    List.Sorted rdesc (top10 cur next) ∧
    List.Sorted rasc (bottom10 cur next) ∧
    top_avg cur next =
      seriesMean ((valid_stocks cur next).filterMap fun p => lookupRet next p.1) ∧
    bottom_avg cur next =
      seriesMean ((valid_stocks cur next).filterMap fun p => lookupRet next p.1) := by
  have htake : ∀ r : (String × ℚ) → (String × ℚ) → Prop, ∀ inst : DecidableRel r,
      (List.insertionSort r (valid_stocks cur next)).take 10
        = List.insertionSort r (valid_stocks cur next) := fun r inst =>
    List.take_of_length_le (by rw [List.length_insertionSort]; omega)
  have ht : top10 cur next = List.insertionSort rdesc (valid_stocks cur next) := htake _ _
  have hb : bottom10 cur next = List.insertionSort rasc (valid_stocks cur next) := htake _ _
  have hpt : (top10 cur next).Perm (valid_stocks cur next) := by
    rw [ht]; exact List.perm_insertionSort rdesc _
  have hpb : (bottom10 cur next).Perm (valid_stocks cur next) := by
    rw [hb]; exact List.perm_insertionSort rasc _
  refine ⟨ht, hb, hpt.length_eq, hpb.length_eq, hpt, hpb, ?_, ?_, ?_, ?_⟩
  · rw [ht]; exact List.sorted_insertionSort rdesc _
  · rw [hb]; exact List.sorted_insertionSort rasc _
  · exact seriesMean_perm (hpt.filterMap _)
  · exact seriesMean_perm (hpb.filterMap _)

theorem short_window_selects_all_witness :
    top10 [("A", (1/2 : ℚ)), ("B", (-(3/10) : ℚ))] [("A", (1/10 : ℚ)), ("B", (1/5 : ℚ))]
      = List.insertionSort rdesc
          (valid_stocks [("A", (1/2 : ℚ)), ("B", (-(3/10) : ℚ))]
            [("A", (1/10 : ℚ)), ("B", (1/5 : ℚ))]) ∧
    top_avg [("A", (1/2 : ℚ)), ("B", (-(3/10) : ℚ))] [("A", (1/10 : ℚ)), ("B", (1/5 : ℚ))]
      = seriesMean
          ((valid_stocks [("A", (1/2 : ℚ)), ("B", (-(3/10) : ℚ))]
              [("A", (1/10 : ℚ)), ("B", (1/5 : ℚ))]).filterMap
            fun p => lookupRet [("A", (1/10 : ℚ)), ("B", (1/5 : ℚ))] p.1) :=
  ⟨(short_window_selects_all _ _ (by decide)).1,
   (short_window_selects_all _ _ (by decide)).2.2.2.2.2.2.2.2.1⟩

/-! ## C5: the detailed selection records -/

theorem mem_top10_mem_valid {cur next : List (String × ℚ)} {p : String × ℚ}
    (h : p ∈ top10 cur next) : p ∈ valid_stocks cur next :=
  (List.mem_insertionSort rdesc).1 (List.take_subset _ _ h)

theorem mem_bottom10_mem_valid {cur next : List (String × ℚ)} {p : String × ℚ}
    (h : p ∈ bottom10 cur next) : p ∈ valid_stocks cur next :=
  (List.mem_insertionSort rasc).1 (List.take_subset _ _ h)

theorem nodup_fst_valid {cur next : List (String × ℚ)}
    (h : (cur.map Prod.fst).Nodup) :
    ((valid_stocks cur next).map Prod.fst).Nodup :=
  ((List.filter_sublist _).map Prod.fst).nodup h

theorem nodup_fst_top10 {cur next : List (String × ℚ)}
    (h : (cur.map Prod.fst).Nodup) :
    ((top10 cur next).map Prod.fst).Nodup := by
  have hs : ((List.insertionSort rdesc (valid_stocks cur next)).map Prod.fst).Nodup :=
    (((List.perm_insertionSort rdesc (valid_stocks cur next)).map Prod.fst).symm).nodup
      (nodup_fst_valid h)
  exact ((List.take_sublist _ _).map Prod.fst).nodup hs

theorem nodup_fst_bottom10 {cur next : List (String × ℚ)}
    (h : (cur.map Prod.fst).Nodup) :
    ((bottom10 cur next).map Prod.fst).Nodup := by
  have hs : ((List.insertionSort rasc (valid_stocks cur next)).map Prod.fst).Nodup :=
    (((List.perm_insertionSort rasc (valid_stocks cur next)).map Prod.fst).symm).nodup
      (nodup_fst_valid h)
  exact ((List.take_sublist _ _).map Prod.fst).nodup hs

theorem countP_fst_eq_one : ∀ {l : List (String × ℚ)} {p : String × ℚ},
    (l.map Prod.fst).Nodup → p ∈ l → l.countP (fun q => q.1 == p.1) = 1 := by
  intro l
  induction l with
  | nil => intro p _ hm; simp at hm
  | cons q t ih =>
    intro p hnd hm
    simp only [List.map_cons, List.nodup_cons] at hnd
    rcases List.mem_cons.1 hm with rfl | hm'
    · rw [List.countP_cons_of_pos _ _ (by simp)]
      have h0 : t.countP (fun q' => q'.1 == p.1) = 0 :=
        List.countP_eq_zero.2 fun q' hq' => by
          simp only [beq_iff_eq]
          intro hc
          exact hnd.1 (hc ▸ List.mem_map_of_mem Prod.fst hq')
      rw [h0]
    · have hq : (q.1 == p.1) = false := by
        simp only [beq_eq_false_iff_ne, ne_eq]
        intro hc
        exact hnd.1 (hc ▸ List.mem_map_of_mem Prod.fst hm')
      rw [List.countP_cons_of_neg _ _ (by simp [hq])]
      exact ih hnd.2 hm'

theorem find?_fst_eq_some : ∀ {l : List (String × ℚ)} {p : String × ℚ},
    (l.map Prod.fst).Nodup → p ∈ l → l.find? (fun q => q.1 == p.1) = some p := by
  intro l
  induction l with
  | nil => intro p _ hm; simp at hm
  | cons q t ih =>
    intro p hnd hm
    simp only [List.map_cons, List.nodup_cons] at hnd
    rcases List.mem_cons.1 hm with rfl | hm'
    · simp [List.find?]
    · have hq : (q.1 == p.1) = false := by
        simp only [beq_eq_false_iff_ne, ne_eq]
        intro hc
        exact hnd.1 (hc ▸ List.mem_map_of_mem Prod.fst hm')
      rw [List.find?, hq]
      exact ih hnd.2 hm'

theorem lookupRet_eq_of_mem {l : List (String × ℚ)} {p : String × ℚ}
    (hnd : (l.map Prod.fst).Nodup) (hm : p ∈ l) : lookupRet l p.1 = some p.2 := by
  unfold lookupRet
  rw [find?_fst_eq_some hnd hm]
  rfl

/-- C5: for each transition of the backtest loop the appended records are
exactly those of `recordsFor` (target year, category, symbol, selection-year
return ×100 rounded to 2 decimals); for each symbol of `top10` (resp.
`bottom10`) exactly one record of that category is appended, labelled with
the target year and carrying the selection-year return `r_i[symbol]`. -/
theorem selection_records_exact :
    (∀ (panel : List (Int × Row)) (res : BacktestResult), backtest panel = some res →
      res.detailed_records = records_all panel) ∧
    (∀ (y : Int) (cur next : List (String × ℚ)) (p : String × ℚ),
      (cur.map Prod.fst).Nodup → p ∈ top10 cur next →
      (recordsFor y cur next).countP
          (fun r => r.category == "Top 10" && r.stock == p.1) = 1 ∧
      (⟨y, "Top 10", p.1, round2 (p.2 * 100)⟩ : SelectionRecord) ∈ recordsFor y cur next ∧
      lookupRet cur p.1 = some p.2) ∧
    (∀ (y : Int) (cur next : List (String × ℚ)) (p : String × ℚ),
      (cur.map Prod.fst).Nodup → p ∈ bottom10 cur next →
      (recordsFor y cur next).countP
          (fun r => r.category == "Bottom 10" && r.stock == p.1) = 1 ∧
      (⟨y, "Bottom 10", p.1, round2 (p.2 * 100)⟩ : SelectionRecord) ∈ recordsFor y cur next ∧
      lookupRet cur p.1 = some p.2) := by
  refine ⟨?_, ?_, ?_⟩
  · intro panel res h
    match panel, h with
    | (y0, r0) :: rest, h =>
      rw [backtest] at h
      simp only [backtestLoop_eq] at h
      obtain rfl : _ = res := Option.some.inj h
      rfl
  · intro y cur next p hnd hm
    have hv : p ∈ valid_stocks cur next := mem_top10_mem_valid hm
    have hc : p ∈ cur := List.mem_of_mem_filter hv
    refine ⟨?_, ?_, lookupRet_eq_of_mem hnd hc⟩
    · unfold recordsFor
      rw [List.countP_append]
      have h1 : (((top10 cur next).map fun q =>
            (⟨y, "Top 10", q.1, round2 (q.2 * 100)⟩ : SelectionRecord)).countP
          fun r => r.category == "Top 10" && r.stock == p.1)
          = (top10 cur next).countP fun q => q.1 == p.1 := by
        rw [List.countP_map]
        exact List.countP_congr fun a _ => by simp
      have h2 : (((bottom10 cur next).map fun q =>
            (⟨y, "Bottom 10", q.1, round2 (q.2 * 100)⟩ : SelectionRecord)).countP
          fun r => r.category == "Top 10" && r.stock == p.1) = 0 := by
        rw [List.countP_map]
        exact List.countP_eq_zero.2 fun a _ => by simp
      rw [h1, h2, countP_fst_eq_one (nodup_fst_top10 hnd) hm]
    · exact List.mem_append_left _ (List.mem_map_of_mem _ hm)
  · intro y cur next p hnd hm
    have hv : p ∈ valid_stocks cur next := mem_bottom10_mem_valid hm
    have hc : p ∈ cur := List.mem_of_mem_filter hv
    refine ⟨?_, ?_, lookupRet_eq_of_mem hnd hc⟩
    · unfold recordsFor
      rw [List.countP_append]
      have h1 : (((top10 cur next).map fun q =>
            (⟨y, "Top 10", q.1, round2 (q.2 * 100)⟩ : SelectionRecord)).countP
          fun r => r.category == "Bottom 10" && r.stock == p.1) = 0 := by
        rw [List.countP_map]
        exact List.countP_eq_zero.2 fun a _ => by simp
      have h2 : (((bottom10 cur next).map fun q =>
            (⟨y, "Bottom 10", q.1, round2 (q.2 * 100)⟩ : SelectionRecord)).countP
          fun r => r.category == "Bottom 10" && r.stock == p.1)
          = (bottom10 cur next).countP fun q => q.1 == p.1 := by
        rw [List.countP_map]
        exact List.countP_congr fun a _ => by simp
      rw [h1, h2, countP_fst_eq_one (nodup_fst_bottom10 hnd) hm]
    · exact List.mem_append_right _ (List.mem_map_of_mem _ hm)

theorem selection_records_exact_witness :
    resEx.detailed_records = records_all panelEx ∧
    (recordsFor 2005 [("A", (1/2 : ℚ)), ("B", (-(3/10) : ℚ))]
        [("A", (1/10 : ℚ)), ("B", (1/5 : ℚ))]).countP
      (fun r => r.category == "Top 10" && r.stock == "A") = 1 :=
  ⟨selection_records_exact.1 panelEx resEx (by decide),
   (selection_records_exact.2.1 2005 _ _ ("A", (1/2 : ℚ)) (by decide) (by decide)).1⟩

/-! ## C3: the two selections -/

theorem countGT_le : ∀ (l : List (String × ℚ)) (k : Nat) (x : String × ℚ),
    l.Pairwise rdesc → x ∈ l.take k →
    l.countP (fun y => decide (x.2 < y.2)) ≤ k - 1 := by
  intro l
  induction l with
  | nil => intro k x _ hx; simp at hx
  | cons y t ih =>
    intro k x hp hx
    obtain ⟨hy, ht⟩ := List.pairwise_cons.1 hp
    cases k with
    | zero => simp at hx
    | succ k' =>
      rw [List.take_succ_cons] at hx
      rcases List.mem_cons.1 hx with rfl | hx'
      · have h0 : t.countP (fun y' => decide (x.2 < y'.2)) = 0 :=
          List.countP_eq_zero.2 fun z hz => by simpa using not_lt.2 (hy z hz)
        rw [List.countP_cons, h0]
        simp
      · cases k' with
        | zero => simp at hx'
        | succ k'' =>
          have hrec := ih (k'' + 1) x ht hx'
          simp only [List.countP_cons]
          split <;> omega

theorem countLT_le : ∀ (l : List (String × ℚ)) (k : Nat) (x : String × ℚ),
    l.Pairwise rasc → x ∈ l.take k →
    l.countP (fun y => decide (y.2 < x.2)) ≤ k - 1 := by
  intro l
  induction l with
  | nil => intro k x _ hx; simp at hx
  | cons y t ih =>
    intro k x hp hx
    obtain ⟨hy, ht⟩ := List.pairwise_cons.1 hp
    cases k with
    | zero => simp at hx
    | succ k' =>
      rw [List.take_succ_cons] at hx
      rcases List.mem_cons.1 hx with rfl | hx'
      · have h0 : t.countP (fun y' => decide (y'.2 < x.2)) = 0 :=
          List.countP_eq_zero.2 fun z hz => by simpa using not_lt.2 (hy z hz)
        rw [List.countP_cons, h0]
        simp
      · cases k' with
        | zero => simp at hx'
        | succ k'' =>
          have hrec := ih (k'' + 1) x ht hx'
          simp only [List.countP_cons]
          split <;> omega

theorem countEQ_le_one : ∀ (l : List (String × ℚ)) (x : String × ℚ),
    l.Pairwise (fun p q => p.2 ≠ q.2) →
    l.countP (fun y => decide (y.2 = x.2)) ≤ 1 := by
  intro l
  induction l with
  | nil => intro x _; simp
  | cons y t ih =>
    intro x hp
    obtain ⟨hy, ht⟩ := List.pairwise_cons.1 hp
    by_cases hc : y.2 = x.2
    · have h0 : t.countP (fun y' => decide (y'.2 = x.2)) = 0 :=
        List.countP_eq_zero.2 fun z hz => by
          simp only [decide_eq_true_eq]
          intro hzx
          exact hy z hz (hc.trans hzx.symm)
      rw [List.countP_cons, h0]
      simp [hc]
    · rw [List.countP_cons]
      simp only [hc, decide_eq_true_eq, if_false, Nat.add_zero]
      exact ih x ht

theorem length_le_counts (x : String × ℚ) : ∀ l : List (String × ℚ),
    l.length ≤ l.countP (fun y => decide (x.2 < y.2))
      + l.countP (fun y => decide (y.2 < x.2))
      + l.countP (fun y => decide (y.2 = x.2)) := by
  intro l
  induction l with
  | nil => simp
  | cons y t ih =>
    simp only [List.countP_cons, List.length_cons]
    rcases lt_trichotomy x.2 y.2 with h | h | h
    · have e1 : decide (x.2 < y.2) = true := decide_eq_true h
      simp only [e1, if_true]
      omega
    · have e3 : decide (y.2 = x.2) = true := decide_eq_true h.symm
      simp only [e3, if_true]
      omega
    · have e2 : decide (y.2 < x.2) = true := decide_eq_true h
      simp only [e2, if_true]
      omega

theorem eq_of_fst_eq : ∀ {l : List (String × ℚ)}, (l.map Prod.fst).Nodup →
    ∀ {p q : String × ℚ}, p ∈ l → q ∈ l → p.1 = q.1 → p = q := by
  intro l
  induction l with
  | nil => intro _ p q hp; simp at hp
  | cons a t ih =>
    intro hnd p q hp hq h1
    simp only [List.map_cons, List.nodup_cons] at hnd
    rcases List.mem_cons.1 hp with rfl | hp' <;> rcases List.mem_cons.1 hq with rfl | hq'
    · rfl
    · exact absurd (h1 ▸ List.mem_map_of_mem Prod.fst hq') hnd.1
    · exact absurd (h1 ▸ List.mem_map_of_mem Prod.fst hp') hnd.1
    · exact ih hnd.2 hp' hq' h1

/-- A return row with a single symbol: the two selections coincide. -/
def soloRow : List (String × ℚ) := [("A", 1)]

/-- C3 counterexample: with a single valid stock the symbol "A" is selected
by both `top10` and `bottom10` — the two selections are not disjoint. -/
theorem selections_disjoint_counterexample :
    "A" ∈ (top10 soloRow soloRow).map Prod.fst ∧
    "A" ∈ (bottom10 soloRow soloRow).map Prod.fst := by
  constructor <;> decide

/-- C3 amended: for every transition the two selections have size at most 10
and are subsets of `valid_stocks`; they are disjoint only when there are at
least 20 valid stocks whose selection-year returns are pairwise distinct
(the code takes `head(10)` of both orderings without excluding overlap, so
with fewer than 20 valid stocks — or boundary ties — they may share symbols). -/
theorem selections_amended (cur next : List (String × ℚ)) :
    ((top10 cur next).length ≤ 10 ∧ (bottom10 cur next).length ≤ 10 ∧
     (∀ p ∈ top10 cur next, p ∈ valid_stocks cur next) ∧
     (∀ p ∈ bottom10 cur next, p ∈ valid_stocks cur next)) ∧
    (20 ≤ (valid_stocks cur next).length →
     ((valid_stocks cur next).map Prod.fst).Nodup →
     (valid_stocks cur next).Pairwise (fun p q => p.2 ≠ q.2) →
     ∀ s ∈ (top10 cur next).map Prod.fst, s ∉ (bottom10 cur next).map Prod.fst) := by
  constructor
  · exact ⟨List.length_take_le _ _, List.length_take_le _ _,
      fun p hp => mem_top10_mem_valid hp, fun p hp => mem_bottom10_mem_valid hp⟩
  · intro h20 hnd hpw s hst hsb
    obtain ⟨p, hp, rfl⟩ := List.mem_map.1 hst
    obtain ⟨q, hq, hqs⟩ := List.mem_map.1 hsb
    have hqp : q = p :=
      eq_of_fst_eq hnd (mem_bottom10_mem_valid hq) (mem_top10_mem_valid hp) hqs
    subst hqp
    have hgt : (valid_stocks cur next).countP (fun y => decide (q.2 < y.2)) ≤ 9 := by
      have hs : (List.insertionSort rdesc (valid_stocks cur next)).Pairwise rdesc :=
        List.sorted_insertionSort rdesc _
      have := countGT_le _ 10 q hs hp
      rwa [(List.perm_insertionSort rdesc (valid_stocks cur next)).countP_eq] at this
    have hlt : (valid_stocks cur next).countP (fun y => decide (y.2 < q.2)) ≤ 9 := by
      have hs : (List.insertionSort rasc (valid_stocks cur next)).Pairwise rasc :=
        List.sorted_insertionSort rasc _
      have := countLT_le _ 10 q hs hq
      rwa [(List.perm_insertionSort rasc (valid_stocks cur next)).countP_eq] at this
    have heq : (valid_stocks cur next).countP (fun y => decide (y.2 = q.2)) ≤ 1 :=
      countEQ_le_one _ q hpw
    have hlen := length_le_counts q (valid_stocks cur next)
    omega

/-- Twenty symbols with pairwise distinct returns, for the C3 witness. -/
def wideRow : List (String × ℚ) :=
  [("s01", 1), ("s02", 2), ("s03", 3), ("s04", 4), ("s05", 5),
   ("s06", 6), ("s07", 7), ("s08", 8), ("s09", 9), ("s10", 10),
   ("s11", 11), ("s12", 12), ("s13", 13), ("s14", 14), ("s15", 15),
   ("s16", 16), ("s17", 17), ("s18", 18), ("s19", 19), ("s20", 20)]

theorem selections_amended_witness :
    (top10 wideRow wideRow).length ≤ 10 ∧
    "s20" ∈ (top10 wideRow wideRow).map Prod.fst ∧
    "s20" ∉ (bottom10 wideRow wideRow).map Prod.fst :=
  ⟨(selections_amended wideRow wideRow).1.1,
   by decide,
   (selections_amended wideRow wideRow).2 (by decide) (by decide) (by decide)
     "s20" (by decide)⟩

/-! ## C6: the annual return panel -/

theorem pct_change_zip_getD (f : List V) : ∀ (prev : V) (i : Nat),
    (List.zipWith ratioChange (prev :: f) f).getD i none
      = ratioChange ((prev :: f).getD i none) (f.getD i none) := by
  induction f with
  | nil =>
    intro prev i
    rcases hv : (prev :: ([] : List V)).getD i none with _ | v <;>
      simp [List.getD, ratioChange, hv]
  | cons v f' ih =>
    intro prev i
    cases i with
    | zero => rfl
    | succ j => simpa using ih v j

theorem pct_change_getD_eq (xs : List V) (i : Nat) :
    (pct_change xs).getD i none
      = ratioChange ((none :: ffill none xs).getD i none) ((ffill none xs).getD i none) := by
  rw [pct_change]
  exact pct_change_zip_getD (ffill none xs) none i

theorem ffill_getD_some : ∀ (xs : List V) (last : V) (i : Nat) (a : ℚ),
    xs.getD i none = some a → (ffill last xs).getD i none = some a := by
  intro xs
  induction xs with
  | nil => intro last i a h; simp at h
  | cons x t ih =>
    intro last i a h
    cases i with
    | zero =>
      cases x with
      | none => simp at h
      | some v => simpa [ffill] using h
    | succ j =>
      cases x with
      | none => simpa [ffill] using ih last j a (by simpa using h)
      | some v => simpa [ffill] using ih (some v) j a (by simpa using h)

theorem ffill_isSome : ∀ (xs : List V) (last : V) (i : Nat),
    ((ffill last xs).getD i none).isSome
      ↔ (i < xs.length ∧ (last.isSome ∨ ∃ j, j ≤ i ∧ (xs.getD j none).isSome)) := by
  intro xs
  induction xs with
  | nil => intro last i; simp [ffill]
  | cons x t ih =>
    intro last i
    cases x with
    | some v =>
      cases i with
      | zero =>
        simp only [ffill, List.getD_cons_zero, Option.isSome_some, List.length_cons]
        exact ⟨fun _ => ⟨Nat.succ_pos _, Or.inr ⟨0, Nat.le_refl 0, by simp⟩⟩, fun _ => trivial⟩
      | succ j =>
        show ((ffill (some v) t).getD j none).isSome ↔ _
        rw [ih (some v) j]
        simp only [Option.isSome_some, true_or, and_true, List.length_cons]
        constructor
        · intro hj
          exact ⟨by omega, Or.inr ⟨0, Nat.zero_le _, by simp⟩⟩
        · rintro ⟨hj, _⟩
          omega
    | none =>
      cases i with
      | zero =>
        show last.isSome ↔ _
        simp only [List.length_cons]
        constructor
        · intro hl
          exact ⟨Nat.succ_pos _, Or.inl hl⟩
        · rintro ⟨_, hl | ⟨j, hj, hjs⟩⟩
          · exact hl
          · interval_cases j
            simp at hjs
      | succ j =>
        show ((ffill last t).getD j none).isSome ↔ _
        rw [ih last j]
        simp only [List.length_cons]
        constructor
        · rintro ⟨hj, hl | ⟨m, hm, hms⟩⟩
          · exact ⟨by omega, Or.inl hl⟩
          · exact ⟨by omega, Or.inr ⟨m + 1, by omega, by simpa using hms⟩⟩
        · rintro ⟨hj, hl | ⟨k, hk, hks⟩⟩
          · exact ⟨by omega, Or.inl hl⟩
          · cases k with
            | zero => simp at hks
            | succ m => exact ⟨by omega, Or.inr ⟨m, by omega, by simpa using hks⟩⟩

theorem ffill_length : ∀ (xs : List V) (last : V), (ffill last xs).length = xs.length := by
  intro xs
  induction xs with
  | nil => intro last; rfl
  | cons x t ih => intro last; cases x <;> simp [ffill, ih]

theorem pct_change_getD_zero (xs : List V) : (pct_change xs).getD 0 none = none := by
  cases xs with
  | nil => rfl
  | cons x t => cases x <;> rfl

theorem ratioChange_isSome (u v : V) :
    (ratioChange u v).isSome = (u.isSome && v.isSome) := by
  cases u <;> cases v <;> rfl

/-- Price observations for a symbol seen in 2003 and 2005 but not in 2004. -/
def gapObs : List (Int × V) := [((2003 : Int), some (10 : ℚ)), ((2005 : Int), some (12 : ℚ))]

/-- The resampled price panel of that symbol over 2003–2005. -/
def gapPanel : PricePanel := resampleYE [2003, 2004, 2005] [("A", gapObs)]

/-- C6 counterexample: the 2004 resampled price of "A" is absent, yet the
return panel has a present 2004 entry for "A" (value 0, from the padded 2003
price) and its 2005 entry is 12/10 − 1 computed from the padded 2003 price —
`pct_change()` forward-fills by default, so a return can be present when the
year's price is absent. -/
theorem returns_presence_counterexample :
    (gapPanel.cols.getD 0 ("", [])).2.getD 1 none = none ∧
    annual_returns gapPanel = ⟨[2004, 2005], [("A", [some 0, some (1/5)])]⟩ := by
  constructor <;> decide

/-- C6 amended: `pct_change` divides forward-filled prices, so for `i ≥ 1`
the return equals `price[i]/price[i−1] − 1` whenever both actual prices are
present, but it is present exactly when some price was observed at or before
index `i−1` (pandas pads gaps); the first row is always all-absent and
`dropna(how='all')` removes it. -/
theorem returns_padded_amended :
    (∀ (xs : List V) (i : Nat) (a b : ℚ),
      xs.getD i none = some a → xs.getD (i+1) none = some b →
      (pct_change xs).getD (i+1) none = some (b / a - 1)) ∧
    (∀ (xs : List V) (i : Nat),
      ((pct_change xs).getD (i+1) none).isSome
        ↔ (i + 1 < xs.length ∧ ∃ j, j ≤ i ∧ (xs.getD j none).isSome)) ∧
    (∀ xs : List V, (pct_change xs).getD 0 none = none) ∧
    (∀ p : PricePanel, 0 ∉ keepRows (pctPanel p)) := by
  refine ⟨?_, ?_, pct_change_getD_zero, ?_⟩
  · intro xs i a b ha hb
    rw [pct_change_getD_eq, List.getD_cons_succ,
      ffill_getD_some xs none i a ha, ffill_getD_some xs none (i+1) b hb]
    rfl
  · intro xs i
    rw [pct_change_getD_eq, List.getD_cons_succ, ratioChange_isSome]
    have h1 := ffill_isSome xs none i
    have h2 := ffill_isSome xs none (i+1)
    simp only [Option.isSome_none, Bool.false_eq_true, false_or] at h1 h2
    constructor
    · intro h
      obtain ⟨hi, hj⟩ := h1.1 (Bool.and_elim_left h)
      obtain ⟨hi', _⟩ := h2.1 (Bool.and_elim_right h)
      exact ⟨hi', hj⟩
    · rintro ⟨hi, j, hj, hjs⟩
      have e1 : ((ffill none xs).getD i none).isSome :=
        h1.2 ⟨by omega, j, hj, hjs⟩
      have e2 : ((ffill none xs).getD (i+1) none).isSome :=
        h2.2 ⟨hi, j, by omega, hjs⟩
      rw [e1, e2]
      rfl
  · intro p hmem
    have h := (List.mem_filter.1 hmem).2
    have hall : rowIsAllNone (pctPanel p) 0 = true := by
      unfold rowIsAllNone pctPanel
      refine List.all_eq_true.2 fun sc hsc => ?_
      obtain ⟨sc0, hsc0, rfl⟩ := List.mem_map.1 hsc
      show ((pct_change sc0.2).getD 0 none).isNone = true
      rw [pct_change_getD_zero]
      rfl
    rw [hall] at h
    simp at h

theorem returns_padded_amended_witness :
    (pct_change [some (10 : ℚ), some (12 : ℚ)]).getD 1 none = some (12 / 10 - 1) ∧
    ((pct_change [some (10 : ℚ), none]).getD 1 none).isSome :=
  ⟨returns_padded_amended.1 [some 10, some 12] 0 10 12 (by decide) (by decide),
   (returns_padded_amended.2.1 [some 10, none] 0).2
     ⟨by decide, 0, Nat.le_refl 0, by decide⟩⟩

/-! ## C9 and C10: single-stock inspection -/

/-- A one-observation price column whose only price is zero. -/
def zeroCol : List V := [some 0]

/-- C9 counterexample: the dropna'd series `[0]` is non-empty, yet its
normalized series starts at `0/0·100`, not at `100` (in floats, NaN). -/
theorem normalized_counterexample :
    dropnaSeries zeroCol ≠ [] ∧
    (normalized (dropnaSeries zeroCol)).head? ≠ some 100 := by
  constructor <;> decide

/-- C9 amended: every entry of `preloaded_data` is the normalization of a
non-empty dropna'd price column, and the normalized series starts at exactly
100 provided the first observed price is nonzero (for a zero first price the
float code yields NaN instead). -/
theorem normalized_head_amended :
    (∀ (x0 : ℚ) (rest : List ℚ), x0 ≠ 0 → (normalized (x0 :: rest)).head? = some 100) ∧
    (∀ (cols : List (String × List V)) (t : String) (ser : List ℚ),
      (t, ser) ∈ preloaded_data cols →
      ∃ col, (t, col) ∈ cols ∧ dropnaSeries col ≠ [] ∧
        ser = normalized (dropnaSeries col)) := by
  constructor
  · intro x0 rest h
    show ((x0 :: rest).map fun x => x / x0 * 100).head? = some 100
    simp [div_self h]
  · intro cols t ser hm
    obtain ⟨sc, hsc, heq⟩ := List.mem_filterMap.1 hm
    dsimp only [preloaded_data] at heq
    split at heq
    · exact absurd heq (by simp)
    · rename_i hne
      obtain ⟨h1, h2⟩ := Prod.mk.injEq .. ▸ Option.some.inj heq
      refine ⟨sc.2, ?_, ?_, h2.symm⟩
      · rw [← h1]
        simpa using hsc
      · intro hc
        rw [hc] at hne
        exact hne rfl

theorem normalized_head_amended_witness :
    (normalized [(2 : ℚ)]).head? = some 100 :=
  normalized_head_amended.1 2 [] (by decide)

/-- C10: if a requested ticker has no entry in the preloaded map — whether it
is an unknown symbol or a universe ticker whose whole price history is
missing (such columns are excluded from the map) — the stock chart callback
returns the explicit "no data" figure; being a total function, it never
raises. -/
theorem stock_chart_no_data (cols : List (String × List V)) (ticker : String)
    (h : ∀ col, (ticker, col) ∈ cols → dropnaSeries col = []) :
    update_stock_chart (preloaded_data cols) ticker = .noData ticker := by
  have hf : (preloaded_data cols).find? (fun p => p.1 == ticker) = none := by
    cases hfind : (preloaded_data cols).find? (fun p => p.1 == ticker) with
    | none => rfl
    | some p =>
      exfalso
      have hbeq := List.find?_some hfind
      simp only [beq_iff_eq] at hbeq
      have hmem : p ∈ preloaded_data cols := List.mem_of_find?_eq_some hfind
      obtain ⟨sc, hsc, heq⟩ := List.mem_filterMap.1 hmem
      dsimp only [preloaded_data] at heq
      split at heq
      · exact absurd heq (by simp)
      · rename_i hne
        obtain ⟨h1, _⟩ := Prod.mk.injEq .. ▸ Option.some.inj heq
        have hts : sc.1 = ticker := by
          rw [h1]
          exact hbeq
        have hempty : dropnaSeries sc.2 = [] := by
          apply h
          rw [← hts]
          simpa using hsc
        rw [hempty] at hne
        exact hne rfl
  unfold update_stock_chart
  rw [hf]

theorem stock_chart_no_data_witness :
    update_stock_chart (preloaded_data [("AAPL", [none])]) "AAPL"
      = .noData "AAPL" :=
  stock_chart_no_data [("AAPL", [none])] "AAPL" (by
    intro col hc
    simp only [List.mem_singleton, Prod.mk.injEq] at hc
    rw [hc.2]
    rfl)

end DashGraph
